import Mathlib

/-!
Shallow embedding of the dpsnnn-alert crawler (src/index.ts, the current
version of the file: the crawl loop starting at the `runCrawlingCycle`
implementation).  Machine time (`Date.now()`) is modelled as a `Nat` number of
milliseconds; a calendar day is modelled as a `Nat` day index in the
Asia/Seoul timezone, with `+ 1` standing for dayjs's `add(1, 'day')`.
All definitions are executable so that claims can be evaluated on concrete
inputs.
-/

namespace DpsnnnAlert

/-! ## Notification dedup cache (src/index.ts lines 237-292)

`emailSentHistory : Map<string, number>` is modelled as an association list
from URL to the timestamp of the last send, in insertion order (as a JS `Map`
iterates).  Reachable states never bind the same key twice, which the
theorems carry as a `Nodup` hypothesis on the keys where it matters. -/

abbrev EmailHistory := List (String × Nat)

/-- `EMAIL_COOLDOWN_MS = 30 * 60 * 1000` (line 241). -/
def EMAIL_COOLDOWN_MS : Nat := 30 * 60 * 1000

/-- `emailSentHistory.get(url)`: first binding of the key, if any. -/
def histLookup : EmailHistory → String → Option Nat
  | [], _ => none
  | (k, t) :: rest, url => if k = url then some t else histLookup rest url

/-- `canSendEmail(url)` (lines 257-267).  JS note: `if (!lastSent) return
true` is a falsiness test, so a stored timestamp of `0` (the 1970 epoch,
never produced by a real `Date.now()`) would also pass it; the model keeps
that branch.  `now - lastSent` is JS number subtraction compared with `>=`;
for `now < lastSent` both the JS comparison and the truncated `Nat`
subtraction used here answer `false`, so `Nat` subtraction is faithful. -/
def canSendEmail (h : EmailHistory) (now : Nat) (url : String) : Bool :=
  match histLookup h url with
  | none => true
  | some lastSent =>
    if lastSent = 0 then true
    else EMAIL_COOLDOWN_MS ≤ now - lastSent

/-- `recordEmailSent(url)` (lines 270-272): `Map.set`, i.e. update the
existing binding in place, else append a new binding at the end. -/
def recordEmailSent (h : EmailHistory) (now : Nat) (url : String) : EmailHistory :=
  match h with
  | [] => [(url, now)]
  | (k, t) :: rest =>
    if k = url then (k, now) :: rest else (k, t) :: recordEmailSent rest now url

/-- `cleanupOldEmailHistory()` (lines 275-292): collect every key whose age
satisfies `now - timestamp >= EMAIL_COOLDOWN_MS` and delete it from the map;
on the (reachable, key-unique) map states this keeps exactly the entries
with `now - timestamp < EMAIL_COOLDOWN_MS`. -/
def cleanupOldEmailHistory (h : EmailHistory) (now : Nat) : EmailHistory :=
  h.filter fun p => now - p.2 < EMAIL_COOLDOWN_MS

/-! ## Task generation (src/index.ts lines 13, 235, 244-254, 524-534) -/

/-- `DPSNNN_G_URL` (line 181 of the file; the `reserve_g` base URL). -/
def DPSNNN_G_URL : String := "https://www.dpsnnn.com/reserve_g"

/-- `CONCURRENT_LIMIT = 7` (line 235). -/
def CONCURRENT_LIMIT : Nat := 7

/-- The loop body of `getWeekDates` (lines 244-254): push the current day,
advance by one day, `n` times.  The day index abstracts the dayjs date. -/
def weekDatesFrom : Nat → Nat → List Nat
  | _, 0 => []
  | d, n + 1 => d :: weekDatesFrom (d + 1) n

/-- `getWeekDates()` (lines 244-254): the 7 consecutive days starting
`today` (today in Asia/Seoul, passed explicitly since the model is pure). -/
def getWeekDates (today : Nat) : List Nat :=
  weekDatesFrom today 7

/-- dayjs `format('YYYYMMDD')` on the abstract day index, abstracted to the
decimal rendering of the index (both are injective renderings of the day). -/
def formatYYYYMMDD (d : Nat) : String :=
  toString d

/-- The task URL template (line 531):
`` `${DPSNNN_G_URL}?idx=${item.idx}&day=${date}&endDay=${date}` ``. -/
def makeUrl (idx : String) (date : Nat) : String :=
  DPSNNN_G_URL ++ "?idx=" ++ idx ++ "&day=" ++ formatYYYYMMDD date
    ++ "&endDay=" ++ formatYYYYMMDD date

/-- `SearchTask` (lines 329-333). -/
structure SearchTask where
  idx : String
  date : Nat
  url : String
deriving DecidableEq, Repr

/-- The nested task-generation loops of `runCrawlingCycle` (lines 524-534):
for each `item` of the search list, for each `date` of the week window,
push `{ idx, date, url }`. -/
def generateTasks (targets : List String) (today : Nat) : List SearchTask :=
  targets.flatMap fun idx =>
    (getWeekDates today).map fun date => ⟨idx, date, makeUrl idx date⟩

/-- One iteration count of the batching loop (lines 547-557):
`searchTasks.slice(i, i + CONCURRENT_LIMIT)` taken from successive `i`.
Structural fuel recursion (the fuel is the list length; each step with a
non-empty list and `k ≥ 1` drops at least one element). -/
def chunksOfAux (k : Nat) : Nat → List α → List (List α)
  | 0, _ => []
  | _, [] => []
  | fuel + 1, l => l.take k :: chunksOfAux k fuel (l.drop k)

/-- The batching of the task list into consecutive chunks of size at most
`k` (the source runs it with `k = CONCURRENT_LIMIT = 7`; `k = 0` would not
terminate in the source and is mapped to the empty chunking). -/
def chunksOf (k : Nat) (l : List α) : List (List α) :=
  if k = 0 then [] else chunksOfAux k l.length l

/-! ## Reservation prober (`checkReservation`, src/index.ts lines 336-502)

The browser is replaced by a `ProbeScript` describing what the scripted
page would answer at each interaction; `checkReservation` below is a
line-by-line rendering of the source control flow over that script,
producing the observable event trace, the spec-level `ProbeOutcome`
classification and the updated dedup cache.  `browser.newPage()` (line 337)
sits *outside* the `try`, so its rejection makes the returned promise
reject: this is the `Except.error` result.  Every exception raised inside
the `try` block (represented here by a failing `page.goto`) is swallowed by
the `catch` and the page is closed by the `finally`. -/

/-- Substring containment, the model of JS `String.prototype.includes`. -/
def strContains (s pat : String) : Bool :=
  decide (pat.toList <:+: s.toList)

/-- The reserve marker tested by the anchor-scan loop (line 368). -/
def RESERVE_MARKER : String := "예약하기"

/-- The two markers tested by the non-member-scan loop (line 423). -/
def NONMEMBER_MARKER : String := "비회원"

def NONMEMBER_RESERVE_MARKER : String := "예약"

/-- `maxReserveButtonAttempts = maxNonMemberButtonAttempts = 5`
(lines 359, 415). -/
def MAX_ATTEMPTS : Nat := 5

/-- `ProbeOutcome` of the spec data model, as classified by the probe. -/
inductive ProbeOutcome where
  | Available (bookingName : String)
  | Unavailable
  | Inconclusive
  | PageError
deriving DecidableEq, Repr

/-- Observable events of one probe, in program order. -/
inductive PEv where
  /-- `browser.newPage()` resolved (line 337). -/
  | pageOpen
  /-- `page.goto(task.url, networkidle2)` (line 344). -/
  | gotoUrl (url : String)
  /-- One pass of the anchor scan for the reserve button (line 364),
  tagged with the 1-based attempt number. -/
  | reserveScan (attempt : Nat)
  /-- `button.click()` on the reserve button (line 373). -/
  | clickReserve
  /-- `page.reload(networkidle2)` between reserve attempts (line 395). -/
  | reload
  /-- `await delay(ms)` (lines 396, 412, 443, 451, 458, 501). -/
  | delayMs (ms : Nat)
  /-- One pass of the non-member button scan (line 419). -/
  | nonMemberScan (attempt : Nat)
  /-- The in-page click of the non-member button (line 426). -/
  | clickNonMember
  /-- `page.content()` dumped after the reserve scan is exhausted
  (line 404). -/
  | captureContent (html : String)
  /-- `sendEmail(...)` invoked (line 472): the Notifier call. -/
  | notify (url : String)
  /-- `recordEmailSent(task.url)` (line 478). -/
  | record (url : String)
  /-- The skip log of the dedup-suppressed branch (line 484). -/
  | logSkip
  /-- The `catch` block ran (line 494): an in-probe exception was
  swallowed. -/
  | caught
  /-- `page.close()` in the `finally` (line 497). -/
  | pageClose
deriving DecidableEq, Repr

/-- What the scripted page answers during one probe.  The per-attempt
fields give the state of the asynchronously rendered widget as seen by
attempt `k` (1-based); `dialogAppeared` is the value of the `alertAppeared`
flag at the moment line 454 reads it (the flag is set by the dialog
listener at any earlier point of the probe). -/
structure ProbeScript where
  /-- `browser.newPage()` resolves (it sits outside the `try`). -/
  newPageOk : Bool
  /-- `page.goto` rejects, standing for any exception inside the `try`. -/
  gotoThrows : Bool
  /-- Visible texts of the `a` elements found by attempt `k` (line 364). -/
  anchorsAt : Nat → List String
  /-- Text of `.booking_content_detail > div` read after the reserve
  click (lines 377-380); empty when the node is absent. -/
  detailText : String
  /-- Visible texts of the `a, button` elements found by attempt `k` of
  the non-member scan (line 420). -/
  nonMemberTextsAt : Nat → List String
  /-- `alertAppeared` when line 454 reads it. -/
  dialogAppeared : Bool
  /-- `page.url()` recorded after navigation (line 356). -/
  originUrl : String
  /-- `page.url()` at the redirect check (line 461). -/
  finalUrl : String
  /-- `page.content()` (line 404). -/
  pageHtml : String

/-- Whether an anchor list contains the reserve button (line 368). -/
def anchorHasReserve (texts : List String) : Bool :=
  texts.any fun t => strContains t RESERVE_MARKER

/-- Whether an element list contains the non-member reserve button
(line 423): text includes both markers. -/
def hasNonMemberButton (texts : List String) : Bool :=
  texts.any fun t =>
    strContains t NONMEMBER_MARKER && strContains t NONMEMBER_RESERVE_MARKER

/-- The reserve-button retry loop (lines 363-398): scan the anchors; on a
match, click (the booking name is read right after).  Otherwise, when
attempts remain, reload and wait 500 ms, then retry.  Returns the emitted
events and whether the button was found. -/
def reserveLoop (s : ProbeScript) : Nat → Nat → List PEv × Bool
  | _, 0 => ([], false)
  | attempt, fuel + 1 =>
    if anchorHasReserve (s.anchorsAt attempt) then
      ([PEv.reserveScan attempt, PEv.clickReserve], true)
    else if fuel = 0 then
      ([PEv.reserveScan attempt], false)
    else
      let res := reserveLoop s (attempt + 1) fuel
      (PEv.reserveScan attempt :: PEv.reload :: PEv.delayMs 500 :: res.1, res.2)

/-- The non-member-button retry loop (lines 418-445): one `page.evaluate`
per attempt finds and clicks the button; otherwise, when attempts remain,
wait 500 ms and retry. -/
def nonMemberLoop (s : ProbeScript) : Nat → Nat → List PEv × Bool
  | _, 0 => ([], false)
  | attempt, fuel + 1 =>
    if hasNonMemberButton (s.nonMemberTextsAt attempt) then
      ([PEv.nonMemberScan attempt, PEv.clickNonMember], true)
    else if fuel = 0 then
      ([PEv.nonMemberScan attempt], false)
    else
      let res := nonMemberLoop s (attempt + 1) fuel
      (PEv.nonMemberScan attempt :: PEv.delayMs 500 :: res.1, res.2)

/-- Result of one probe: the event trace, the spec-level classification
(`none` when an exception path produced no classification), and the dedup
cache after the probe. -/
structure ProbeResult where
  events : List PEv
  outcome : Option ProbeOutcome
  cache : EmailHistory
deriving DecidableEq, Repr

/-- `checkReservation(browser, task)` (lines 336-502) over a scripted
page.  `cache`/`now` are the `emailSentHistory` contents and `Date.now()`
during the probe's notification step. -/
def checkReservation (cache : EmailHistory) (now : Nat) (task : SearchTask)
    (s : ProbeScript) : Except Unit ProbeResult :=
  if s.newPageOk = false then
    .error ()
  else if s.gotoThrows then
    .ok ⟨[PEv.pageOpen, PEv.caught, PEv.pageClose, PEv.delayMs 1000], none, cache⟩
  else
    let pre := [PEv.pageOpen, PEv.gotoUrl task.url]
    let resEvs := (reserveLoop s 1 MAX_ATTEMPTS).1
    if (reserveLoop s 1 MAX_ATTEMPTS).2 = false then
      .ok ⟨pre ++ resEvs
            ++ [PEv.captureContent s.pageHtml, PEv.pageClose, PEv.delayMs 1000],
          some .PageError, cache⟩
    else
      let nmEvs := (nonMemberLoop s 1 MAX_ATTEMPTS).1
      let mid := resEvs ++ [PEv.delayMs 500] ++ nmEvs
      if (nonMemberLoop s 1 MAX_ATTEMPTS).2 = false then
        .ok ⟨pre ++ mid ++ [PEv.pageClose, PEv.delayMs 1000],
            some .Inconclusive, cache⟩
      else if s.dialogAppeared then
        .ok ⟨pre ++ mid ++ [PEv.delayMs 1000, PEv.pageClose, PEv.delayMs 1000],
            some .Unavailable, cache⟩
      else if s.finalUrl = s.originUrl then
        .ok ⟨pre ++ mid ++ [PEv.delayMs 1000, PEv.delayMs 1000, PEv.pageClose,
              PEv.delayMs 1000],
            some .Inconclusive, cache⟩
      else if canSendEmail cache now task.url then
        .ok ⟨pre ++ mid ++ [PEv.delayMs 1000, PEv.delayMs 1000,
              PEv.notify task.url, PEv.record task.url, PEv.pageClose,
              PEv.delayMs 1000],
            some (.Available s.detailText), recordEmailSent cache now task.url⟩
      else
        .ok ⟨pre ++ mid ++ [PEv.delayMs 1000, PEv.delayMs 1000, PEv.logSkip,
              PEv.pageClose, PEv.delayMs 1000],
            some (.Available s.detailText), cache⟩

/-! ## The notification path under cooperative interleaving
(src/index.ts lines 469-487)

The `Available` branch runs, for one task:

    if (canSendEmail(task.url)) {   // line 470
      await sendEmail(...);         // line 472: a suspension point
      recordEmailSent(task.url);    // line 478
    }

The `await` on the Notifier splits the branch into two atomic blocks, so
the check and the record are not one atomic unit (`notifyPathSteps`
below records that step structure).  The tasks that can run between the
two blocks are the other tasks of the same `Promise.all` chunk — and the
generated task list gives every chunk exactly one target's 7 distinct-date
tasks (chunk size `CONCURRENT_LIMIT = 7` equals the window length; proved
as the chunk/block alignment in the C1 theorem), so tasks sharing a url
never occupy the same chunk: their notification paths execute strictly
sequentially, each record completing before the later task's check.
`notifyRunBlock` executes one atomic block of one task (`pc = 0`: the
`canSendEmail` check together with starting the Notifier call; `pc = 1`:
the post-await continuation that records the send; `pc = 2`: done), and
`notifySched` runs a list of tasks under an explicit schedule, one atomic
block per schedule entry; `seqSchedule` is the run-to-completion order in
which same-url tasks actually execute. -/

/-- One task that has classified its page as `Available` and entered the
notification path, with its `task.url`, the `Date.now()` it observes, and
its program counter. -/
structure NotifyTask where
  url : String
  now : Nat
  pc : Nat
deriving DecidableEq, Repr

/-- Shared state: the dedup cache and the number of Notifier invocations. -/
structure NotifySys where
  tasks : List NotifyTask
  cache : EmailHistory
  sends : Nat
deriving DecidableEq, Repr

/-- One atomic block of the notification path: returns the new program
counter, cache, and send count. -/
def notifyRunBlock (t : NotifyTask) (cache : EmailHistory) (sends : Nat) :
    Nat × EmailHistory × Nat :=
  match t.pc with
  | 0 =>
    if canSendEmail cache t.now t.url then (1, cache, sends + 1)
    else (2, cache, sends)
  | 1 => (2, recordEmailSent cache t.now t.url, sends)
  | _ => (t.pc, cache, sends)

/-- Run the system under a schedule: each entry names the task whose next
atomic block runs (entries naming a finished or absent task are no-ops,
so every interleaving of the tasks' blocks is expressible). -/
def notifySched (sys : NotifySys) : List Nat → NotifySys
  | [] => sys
  | i :: rest =>
    match sys.tasks[i]? with
    | none => notifySched sys rest
    | some t =>
      let res := notifyRunBlock t sys.cache sys.sends
      notifySched ⟨sys.tasks.set i { t with pc := res.1 }, res.2.1, res.2.2⟩ rest

/-- The run-to-completion schedule for `n` tasks: task 0's two blocks, then
task 1's, and so on — the order in which same-url tasks execute, since they
always sit in different (strictly sequentialized) chunks or cycles. -/
def seqSchedule (n : Nat) : List Nat :=
  (List.range n).flatMap fun i => [i, i]

/-- The statements of the `Available`-notification branch (lines 469-487)
in program order. -/
inductive NotifyStep where
  /-- `if (canSendEmail(task.url))` (line 470). -/
  | checkCanSend
  /-- `await sendEmail(...)` (line 472): the Notifier call, awaited. -/
  | awaitSendEmail
  /-- `recordEmailSent(task.url)` (line 478). -/
  | recordSent
  /-- The completion log (line 480). -/
  | logDone
deriving DecidableEq, Repr

/-- The notification branch's statement sequence, lines 470-480. -/
def notifyPathSteps : List NotifyStep :=
  [NotifyStep.checkCanSend, NotifyStep.awaitSendEmail,
    NotifyStep.recordSent, NotifyStep.logDone]

/-- Whether a statement of the branch is `await`ed — a suspension point of
the cooperative scheduler. -/
def isAwaitStep : NotifyStep → Bool
  | NotifyStep.awaitSendEmail => true
  | _ => false

/-! ## Batch scheduler trace model (src/index.ts lines 547-557)

`runCrawlingCycle` processes `chunksOf CONCURRENT_LIMIT searchTasks` one
chunk at a time: the tasks of a chunk are started together and
`await Promise.all` joins them before the next chunk starts.  A cycle
execution is abstracted to a trace of per-task start/terminal events:
within one chunk the tasks interleave arbitrarily (each task's own events
stay in program order), and the chunks' sub-traces are concatenated —
the rendering of the single-threaded `await` barrier between chunks. -/

/-- Scheduler events: task `t` started / reached its terminal outcome. -/
inductive SEv where
  | tStart (t : Nat)
  | tEnd (t : Nat)
deriving DecidableEq, Repr

/-- The events of one task, in program order. -/
def taskEvs (t : Nat) : List SEv := [SEv.tStart t, SEv.tEnd t]

/-- The task an event belongs to. -/
def taskOf : SEv → Nat
  | .tStart t => t
  | .tEnd t => t

/-- `tr` is a possible interleaving of the tasks of one chunk: it is a
permutation of the chunk's events in which each task's own events keep
their order. -/
def IsChunkTrace (chunk : List Nat) (tr : List SEv) : Prop :=
  (chunk.flatMap taskEvs).Perm tr ∧ ∀ t ∈ chunk, (taskEvs t).Sublist tr

/-- `tr` is a possible trace of one cycle's batched execution of `tasks`
with concurrency limit `k`: one block per chunk, blocks concatenated in
chunk order. -/
def IsBatchedTrace (k : Nat) (tasks : List Nat) (tr : List SEv) : Prop :=
  ∃ blocks : List (List SEv),
    tr = blocks.flatten ∧ List.Forall₂ IsChunkTrace (chunksOf k tasks) blocks

/-! ## Cycle driver and main loop (src/index.ts lines 505-563, 565-586)

`runCrawlingCycle` is rendered as a pure function from the cycle's inputs
(cache, clock, targets, today, whether `puppeteer.launch` succeeds, and a
probe script per task) to a cycle-event trace, the resulting cache, and
whether the cycle completed without an escaping exception.  Intra-chunk
execution is taken in task order here (one admissible interleaving; the
interleaving-sensitive claims are settled on the scheduler and
notification models above).  A task whose `newPage` rejects makes
`Promise.all`, and hence the cycle, reject: the remaining chunks do not
run, the `finally` closes the browser, and the loop's `catch` eats the
exception. -/

/-- Cycle-level events. -/
inductive CEv where
  /-- `cleanupOldEmailHistory()` ran (line 513). -/
  | cleanupEv
  /-- `getWeekDates()` recomputed the window (line 516), tagged with its
  length. -/
  | windowEv (len : Nat)
  /-- The task list was generated (lines 524-534), tagged with its
  length. -/
  | genTasksEv (n : Nat)
  /-- `puppeteer.launch` resolved (line 541). -/
  | launchEv
  /-- `puppeteer.launch` rejected. -/
  | launchFailEv
  /-- An event of one task's probe, tagged with the task's position. -/
  | taskEv (i : Nat) (e : PEv)
  /-- A task's probe rejected (its `newPage` failed), aborting the
  cycle. -/
  | taskFailEv (i : Nat)
  /-- `browser.close()` in the cycle's `finally` (line 561). -/
  | browserCloseEv
deriving DecidableEq, Repr

/-- Run the tasks of one chunk in order, threading the cache; stops at the
first task whose probe rejects. -/
def runChunkTasks (now : Nat) (scripts : SearchTask → ProbeScript) :
    EmailHistory → List (Nat × SearchTask) → List CEv × EmailHistory × Bool
  | cache, [] => ([], cache, true)
  | cache, (i, task) :: rest =>
    match checkReservation cache now task (scripts task) with
    | .error _ => ([CEv.taskFailEv i], cache, false)
    | .ok r =>
      let res := runChunkTasks now scripts r.cache rest
      (r.events.map (CEv.taskEv i) ++ res.1, res.2.1, res.2.2)

/-- Run the chunks in order; a rejected chunk aborts the remaining ones. -/
def runChunksSeq (now : Nat) (scripts : SearchTask → ProbeScript) :
    EmailHistory → List (List (Nat × SearchTask)) → List CEv × EmailHistory × Bool
  | cache, [] => ([], cache, true)
  | cache, chunk :: rest =>
    let res := runChunkTasks now scripts cache chunk
    if res.2.2 then
      let res' := runChunksSeq now scripts res.2.1 rest
      (res.1 ++ res'.1, res'.2.1, res'.2.2)
    else (res.1, res.2.1, false)

/-- `runCrawlingCycle(cycleNumber)` (lines 505-563): clean the dedup cache,
recompute the week window, generate the tasks, launch the browser, process
the tasks in chunks of `CONCURRENT_LIMIT`, close the browser.  The `Bool`
result tells whether the cycle ran to completion (`false` when the launch
or a task's `newPage` rejected — the exception then escapes to the main
loop). -/
def runCrawlingCycle (cache : EmailHistory) (now : Nat) (targets : List String)
    (today : Nat) (launchOk : Bool) (scripts : SearchTask → ProbeScript) :
    List CEv × EmailHistory × Bool :=
  let cache1 := cleanupOldEmailHistory cache now
  let week := getWeekDates today
  let tasks := generateTasks targets today
  let pre := [CEv.cleanupEv, CEv.windowEv week.length, CEv.genTasksEv tasks.length]
  if launchOk = false then
    (pre ++ [CEv.launchFailEv], cache1, false)
  else
    let indexed := (List.range tasks.length).zip tasks
    let res := runChunksSeq now scripts cache1 (chunksOf CONCURRENT_LIMIT indexed)
    (pre ++ [CEv.launchEv] ++ res.1 ++ [CEv.browserCloseEv], res.2.1, res.2.2)

/-- The inputs one iteration of the main loop draws from the outside
world. -/
structure CycleInput where
  now : Nat
  today : Nat
  launchOk : Bool
  targets : List String
  scripts : SearchTask → ProbeScript

/-- State of the main loop: the process-wide cache, the cycle counter, and
the log of completed cycle attempts (trace, completed-normally flag). -/
structure LoopState where
  cache : EmailHistory
  cycleNumber : Nat
  log : List (List CEv × Bool)

/-- One iteration of the `while (true)` body (lines 576-585): run the
cycle; on success increment `cycleNumber`; on a caught exception log it
and leave `cycleNumber` unchanged (the `+= 1` sits inside the `try`).
Either way the loop continues. -/
def mainLoopStep (inp : CycleInput) (st : LoopState) : LoopState :=
  let res :=
    runCrawlingCycle st.cache inp.now inp.targets inp.today inp.launchOk inp.scripts
  { cache := res.2.1
    cycleNumber := if res.2.2 then st.cycleNumber + 1 else st.cycleNumber
    log := st.log ++ [(res.1, res.2.2)] }

/-- `n` iterations of the main loop, the `i`-th iteration reading
`inps (start + i)`.  The source loop is unbounded; the model exposes the
state after any finite number of iterations. -/
def mainLoop (inps : Nat → CycleInput) : Nat → Nat → LoopState → LoopState
  | _, 0, st => st
  | start, n + 1, st => mainLoop inps (start + 1) n (mainLoopStep (inps start) st)

/-- A benign probe script (empty page), used for concrete instances. -/
def defaultScript : ProbeScript :=
  ⟨true, false, fun _ => [], "", fun _ => [], false, "", "", ""⟩

/-- The within-one-target, then across-targets ordering relation of the
generated task list: earlier target, or same target and earlier date. -/
def TaskBefore (targets : List String) (a b : SearchTask) : Prop :=
  targets.indexOf a.idx < targets.indexOf b.idx ∨ (a.idx = b.idx ∧ a.date < b.date)

/-- Project the attempt number out of a reserve-scan event. -/
def reserveScanOf : PEv → Option Nat
  | .reserveScan k => some k
  | _ => none

/-- Project the attempt number out of a non-member-scan event. -/
def nonMemberScanOf : PEv → Option Nat
  | .nonMemberScan k => some k
  | _ => none

/-- The outcome projection of a probe's result (`none` when the probe's
promise rejected or classified nothing). -/
def probeOutcomeOf (res : Except Unit ProbeResult) : Option ProbeOutcome :=
  match res with
  | .error _ => none
  | .ok r => r.outcome

/-- The event-trace projection of a probe's result. -/
def probeEventsOf (res : Except Unit ProbeResult) : List PEv :=
  match res with
  | .error _ => []
  | .ok r => r.events

/-- The cache projection of a probe's result (`d` when the probe's promise
rejected before touching the cache). -/
def probeCacheOf (d : EmailHistory) (res : Except Unit ProbeResult) : EmailHistory :=
  match res with
  | .error _ => d
  | .ok r => r.cache

/-- Whether the probe's promise resolved (no exception escaped the task). -/
def probeOk (res : Except Unit ProbeResult) : Bool :=
  match res with
  | .error _ => false
  | .ok _ => true

/-! ## Helper lemmas -/

theorem histLookup_eq_none {h : EmailHistory} {url : String} :
    histLookup h url = none ↔ url ∉ h.map Prod.fst := by
  induction h with
  | nil => simp [histLookup]
  | cons p rest ih =>
    obtain ⟨k, t⟩ := p
    by_cases hk : k = url
    · subst hk; simp [histLookup]
    · simp [histLookup, hk, ih, Ne.symm hk]

theorem histLookup_filter {h : EmailHistory} {p : String × Nat → Bool}
    (hkeys : (h.map Prod.fst).Nodup) {url : String} {t : Nat} :
    histLookup (h.filter p) url = some t ↔
      histLookup h url = some t ∧ p (url, t) = true := by
  induction h with
  | nil => simp [histLookup]
  | cons q rest ih =>
    obtain ⟨k, v⟩ := q
    simp only [List.map_cons, List.nodup_cons] at hkeys
    obtain ⟨hk_notin, hrest⟩ := hkeys
    by_cases hk : k = url
    · subst hk
      have hnonef : histLookup (rest.filter p) k = none := by
        rw [histLookup_eq_none]
        intro hmem
        obtain ⟨x, hx, hxk⟩ := List.mem_map.mp hmem
        exact hk_notin (List.mem_map.mpr ⟨x, List.mem_of_mem_filter hx, hxk⟩)
      by_cases hp : p (k, v) = true
      · simp only [List.filter_cons, hp, if_true, histLookup, if_pos rfl]
        constructor
        · intro h'
          obtain rfl : v = t := Option.some.inj h'
          exact ⟨rfl, hp⟩
        · exact fun h' => h'.1
      · simp only [List.filter_cons, hp, Bool.false_eq_true, if_false, hnonef,
          histLookup, if_pos rfl]
        constructor
        · intro h'; cases h'
        · intro h'
          obtain rfl : v = t := Option.some.inj h'.1
          exact absurd h'.2 hp
    · by_cases hp : p (k, v) = true <;>
        simp [List.filter_cons, hp, histLookup, hk, ih hrest]

theorem histLookup_recordEmailSent_self (h : EmailHistory) (now : Nat)
    (url : String) :
    histLookup (recordEmailSent h now url) url = some now := by
  induction h with
  | nil => simp [recordEmailSent, histLookup]
  | cons p rest ih =>
    obtain ⟨k, t⟩ := p
    by_cases hk : k = url <;> simp [recordEmailSent, hk, histLookup, ih]

/-! ## Claim C5 -/

/-- C5: `canSendEmail` answers `true` exactly when the cache has no entry
for the url or the entry's age has reached the 30-minute cooldown: it is
`true` on a fresh cache, `false` right after (and within the cooldown of)
`recordEmailSent`, `true` again once the clock has advanced at least the
cooldown past the recorded time, and in general `true` iff no entry exists
or `EMAIL_COOLDOWN_MS ≤ now - lastSent` (over caches whose entries are
genuine `Date.now()` timestamps, i.e. positive). -/
theorem canSendEmail_spec (h : EmailHistory) (url : String) (now t : Nat)
    (hpos : 0 < t)
    (hkeys : ∀ t', histLookup h url = some t' → 0 < t') :
    canSendEmail [] now url = true
    ∧ (now - t < EMAIL_COOLDOWN_MS →
        canSendEmail (recordEmailSent h t url) now url = false)
    ∧ (EMAIL_COOLDOWN_MS ≤ now - t →
        canSendEmail (recordEmailSent h t url) now url = true)
    ∧ (canSendEmail h now url = true ↔
        histLookup h url = none
        ∨ ∃ t', histLookup h url = some t' ∧ EMAIL_COOLDOWN_MS ≤ now - t') := by
  refine ⟨rfl, ?_, ?_, ?_⟩
  · intro hlt
    simp only [canSendEmail, histLookup_recordEmailSent_self]
    rw [if_neg hpos.ne']
    simp only [decide_eq_false_iff_not]
    omega
  · intro hle
    simp only [canSendEmail, histLookup_recordEmailSent_self]
    rw [if_neg hpos.ne']
    simp [hle]
  · cases hcase : histLookup h url with
    | none => simp [canSendEmail, hcase]
    | some t' =>
      have ht' : t' ≠ 0 := (hkeys t' hcase).ne'
      simp [canSendEmail, hcase, ht']

/-- Witness for C5 at a concrete cache and clock. -/
theorem canSendEmail_spec_witness :
    canSendEmail [] 10 "u" = true
    ∧ canSendEmail (recordEmailSent [] 3 "u") 10 "u" = false := by
  have h := canSendEmail_spec [] "u" 10 3 (by decide)
    (fun t' ht => by simp [histLookup] at ht)
  exact ⟨h.1, h.2.1 (by decide)⟩

theorem runChunkTasks_events_shape (now : Nat) (scripts : SearchTask → ProbeScript) :
    ∀ (l : List (Nat × SearchTask)) (cache : EmailHistory) (e : CEv),
      e ∈ (runChunkTasks now scripts cache l).1 →
      (∃ i p, e = CEv.taskEv i p) ∨ ∃ i, e = CEv.taskFailEv i := by
  intro l
  induction l with
  | nil => intro cache e he; simp [runChunkTasks] at he
  | cons q rest ih =>
    intro cache e he
    obtain ⟨i, task⟩ := q
    simp only [runChunkTasks] at he
    cases hc : checkReservation cache now task (scripts task) with
    | error u =>
      rw [hc] at he
      simp only [List.mem_singleton] at he
      exact Or.inr ⟨i, he⟩
    | ok r =>
      rw [hc] at he
      simp only [List.mem_append, List.mem_map] at he
      rcases he with ⟨p, _, rfl⟩ | he
      · exact Or.inl ⟨i, p, rfl⟩
      · exact ih r.cache e he

theorem runChunksSeq_events_shape (now : Nat) (scripts : SearchTask → ProbeScript) :
    ∀ (l : List (List (Nat × SearchTask))) (cache : EmailHistory) (e : CEv),
      e ∈ (runChunksSeq now scripts cache l).1 →
      (∃ i p, e = CEv.taskEv i p) ∨ ∃ i, e = CEv.taskFailEv i := by
  intro l
  induction l with
  | nil => intro cache e he; simp [runChunksSeq] at he
  | cons chunk rest ih =>
    intro cache e he
    simp only [runChunksSeq] at he
    by_cases hok : (runChunkTasks now scripts cache chunk).2.2 = true
    · rw [if_pos hok] at he
      simp only [List.mem_append] at he
      rcases he with he | he
      · exact runChunkTasks_events_shape now scripts chunk cache e he
      · exact ih _ e he
    · rw [if_neg hok] at he
      exact runChunkTasks_events_shape now scripts chunk cache e he

/-! ## Claim C6 -/

/-- C6: `cleanupOldEmailHistory` removes exactly the entries whose age has
reached the cooldown and leaves every newer entry untouched (stated on
key-unique caches, the reachable `Map` states); it is idempotent, it is the
identity when nothing is stale, and one cycle invokes it exactly once — as
the first step of the cycle, before the task list is generated —
independently of how many tasks the cycle has. -/
theorem cleanup_spec (h : EmailHistory) (now : Nat)
    (targets : List String) (today : Nat) (launchOk : Bool)
    (scripts : SearchTask → ProbeScript)
    (hkeys : (h.map Prod.fst).Nodup) :
    (∀ url t, histLookup (cleanupOldEmailHistory h now) url = some t ↔
        histLookup h url = some t ∧ now - t < EMAIL_COOLDOWN_MS)
    ∧ cleanupOldEmailHistory (cleanupOldEmailHistory h now) now
        = cleanupOldEmailHistory h now
    ∧ ((∀ p ∈ h, now - p.2 < EMAIL_COOLDOWN_MS) →
        cleanupOldEmailHistory h now = h)
    ∧ (runCrawlingCycle h now targets today launchOk scripts).1.count
        CEv.cleanupEv = 1
    ∧ (runCrawlingCycle h now targets today launchOk scripts).1.head?
        = some CEv.cleanupEv
    ∧ (runCrawlingCycle h now targets today launchOk scripts).1[2]?
        = some (CEv.genTasksEv (generateTasks targets today).length) := by
  refine ⟨?_, ?_, ?_, ?_, ?_, ?_⟩
  · intro url t
    have := @histLookup_filter h (fun p => now - p.2 < EMAIL_COOLDOWN_MS)
      hkeys url t
    simpa [cleanupOldEmailHistory] using this
  · simp [cleanupOldEmailHistory, List.filter_filter]
  · intro hall
    exact List.filter_eq_self.mpr fun p hp => by simpa using hall p hp
  · unfold runCrawlingCycle
    by_cases hl : launchOk = false
    · simp [hl, List.count_cons, List.count_append]
    · rw [if_neg hl]
      have hzero : (runChunksSeq now scripts (cleanupOldEmailHistory h now)
          (chunksOf CONCURRENT_LIMIT ((List.range (generateTasks targets
            today).length).zip (generateTasks targets today)))).1.count
          CEv.cleanupEv = 0 := by
        rw [List.count_eq_zero]
        intro hmem
        rcases runChunksSeq_events_shape now scripts _ _ _ hmem with ⟨i, p, hep⟩ | ⟨i, hep⟩
          <;> cases hep
      simp [List.count_append, List.count_cons, hzero]
  · unfold runCrawlingCycle
    by_cases hl : launchOk = false <;> simp [hl]
  · unfold runCrawlingCycle
    by_cases hl : launchOk = false <;> simp [hl]

/-- Witness for C6 at a concrete cache, one stale and one fresh entry. -/
theorem cleanup_spec_witness :
    (histLookup (cleanupOldEmailHistory [("a", 1), ("b", 2000000)] 2000001 )
        "b" = some 2000000
      ↔ (histLookup [("a", 1), ("b", 2000000)] "b" = some 2000000
          ∧ 2000001 - 2000000 < EMAIL_COOLDOWN_MS))
    ∧ (runCrawlingCycle [("a", 1), ("b", 2000000)] 2000001 ["5"] 100 true
        (fun _ => defaultScript)).1.count CEv.cleanupEv = 1 := by
  have h := cleanup_spec [("a", 1), ("b", 2000000)] 2000001 ["5"] 100 true
    (fun _ => defaultScript) (by decide)
  exact ⟨h.1 "b" 2000000, h.2.2.2.1⟩

theorem weekDatesFrom_eq_range' : ∀ (n d : Nat), weekDatesFrom d n = List.range' d n := by
  intro n
  induction n with
  | zero => intro d; rfl
  | succ m ih => intro d; rw [weekDatesFrom, ih, List.range'_succ]

theorem getWeekDates_eq (today : Nat) : getWeekDates today = List.range' today 7 :=
  weekDatesFrom_eq_range' 7 today

/-! ## Claim C3 -/

/-- C3: one cycle's task generation over a target list of size `T` yields
exactly `T × 7` tasks — the Cartesian product of the targets with the 7
consecutive days starting today — ordered by target then by ascending
date, with pairwise-distinct `(identifier, date)` pairs (for distinct
targets, as the spec's target *set* supplies), each `url` the fixed
function of identifier and date; an empty target list yields no tasks. -/
theorem task_generator_spec (targets : List String) (today : Nat)
    (hnodup : targets.Nodup) :
    getWeekDates today = List.range' today 7
    ∧ (generateTasks targets today).length = targets.length * 7
    ∧ generateTasks [] today = []
    ∧ (∀ t ∈ generateTasks targets today,
        t.url = makeUrl t.idx t.date ∧ today ≤ t.date ∧ t.date < today + 7)
    ∧ (∀ idx ∈ targets, ∀ i < 7,
        (⟨idx, today + i, makeUrl idx (today + i)⟩ : SearchTask)
          ∈ generateTasks targets today)
    ∧ List.Pairwise (TaskBefore targets) (generateTasks targets today)
    ∧ ((generateTasks targets today).map fun t => (t.idx, t.date)).Nodup := by
  have hlen : ∀ ts : List String, (generateTasks ts today).length = ts.length * 7 := by
    intro ts
    induction ts with
    | nil => rfl
    | cons x l ih =>
      simp only [generateTasks, List.flatMap_cons, List.length_append] at *
      rw [ih]
      simp [getWeekDates_eq, List.length_range']
      ring
  have hmem_shape : ∀ t ∈ generateTasks targets today,
      ∃ idx ∈ targets, ∃ i < 7, t = ⟨idx, today + i, makeUrl idx (today + i)⟩ := by
    intro t ht
    rw [generateTasks, List.mem_flatMap] at ht
    obtain ⟨idx, hidx, ht⟩ := ht
    rw [List.mem_map] at ht
    obtain ⟨d, hd, rfl⟩ := ht
    rw [getWeekDates_eq, List.mem_range'] at hd
    obtain ⟨i, hi, rfl⟩ := hd
    exact ⟨idx, hidx, i, hi, by simp⟩
  have hpair : List.Pairwise (TaskBefore targets) (generateTasks targets today) := by
    rw [generateTasks, List.pairwise_flatMap]
    constructor
    · intro idx _
      rw [List.pairwise_map]
      refine (List.pairwise_lt_range' today 7).imp ?_
      intro d d' hdd'
      exact Or.inr ⟨rfl, hdd'⟩
    · rw [List.pairwise_iff_get]
      intro i j hij x hx y hy
      rw [List.mem_map] at hx hy
      obtain ⟨d, _, rfl⟩ := hx
      obtain ⟨d', _, rfl⟩ := hy
      left
      simp only [List.get_eq_getElem]
      rw [List.indexOf_getElem hnodup, List.indexOf_getElem hnodup]
      exact hij
  refine ⟨getWeekDates_eq today, hlen targets, rfl, ?_, ?_, hpair, ?_⟩
  · intro t ht
    obtain ⟨idx, _, i, hi, rfl⟩ := hmem_shape t ht
    refine ⟨rfl, by simp, by simp; omega⟩
  · intro idx hidx i hi
    rw [generateTasks, List.mem_flatMap]
    refine ⟨idx, hidx, ?_⟩
    rw [List.mem_map]
    exact ⟨today + i, by rw [getWeekDates_eq, List.mem_range']; exact ⟨i, hi, by ring⟩, rfl⟩
  · rw [List.Nodup, List.pairwise_map]
    refine hpair.imp ?_
    intro a b hab heq
    obtain ⟨h1, h2⟩ := Prod.mk.injEq _ _ _ _ ▸ heq
    rcases hab with hlt | ⟨_, hdate⟩
    · rw [show a.idx = b.idx from by simpa using congrArg Prod.fst heq] at hlt
      exact absurd hlt (lt_irrefl _)
    · rw [show a.date = b.date from by simpa using congrArg Prod.snd heq] at hdate
      exact absurd hdate (lt_irrefl _)

/-- Witness for C3 on a concrete two-target list. -/
theorem task_generator_spec_witness :
    (generateTasks ["5", "25"] 100).length = 2 * 7
    ∧ ((generateTasks ["5", "25"] 100).map fun t => (t.idx, t.date)).Nodup := by
  have h := task_generator_spec ["5", "25"] 100 (by decide)
  exact ⟨h.2.1, h.2.2.2.2.2.2⟩

theorem reserveLoop_found_iff (s : ProbeScript) : ∀ (fuel a : Nat),
    (reserveLoop s a fuel).2 = true ↔
      ∃ k, a ≤ k ∧ k < a + fuel ∧ anchorHasReserve (s.anchorsAt k) = true := by
  intro fuel
  induction fuel with
  | zero =>
    intro a
    simp only [reserveLoop]
    constructor
    · intro h; cases h
    · rintro ⟨k, h1, h2, _⟩; omega
  | succ f ih =>
    intro a
    simp only [reserveLoop]
    by_cases h1 : anchorHasReserve (s.anchorsAt a) = true
    · simp only [h1, if_true]
      exact ⟨fun _ => ⟨a, le_refl a, by omega, h1⟩, fun _ => trivial⟩
    · rw [if_neg h1]
      by_cases hf : f = 0
      · subst hf
        simp only [if_pos trivial, reduceIte]
        constructor
        · intro h; cases h
        · rintro ⟨k, hk1, hk2, hk3⟩
          have : k = a := by omega
          subst this
          exact absurd hk3 h1
      · rw [if_neg hf]
        obtain ⟨f', rfl⟩ := Nat.exists_eq_succ_of_ne_zero hf
        rw [ih (a + 1)]
        constructor
        · rintro ⟨k, hk1, hk2, hk3⟩
          exact ⟨k, by omega, by omega, hk3⟩
        · rintro ⟨k, hk1, hk2, hk3⟩
          have hka : k ≠ a := fun h => by subst h; exact absurd hk3 h1
          exact ⟨k, by omega, by omega, hk3⟩

theorem nonMemberLoop_found_iff (s : ProbeScript) : ∀ (fuel a : Nat),
    (nonMemberLoop s a fuel).2 = true ↔
      ∃ k, a ≤ k ∧ k < a + fuel ∧ hasNonMemberButton (s.nonMemberTextsAt k) = true := by
  intro fuel
  induction fuel with
  | zero =>
    intro a
    simp only [nonMemberLoop]
    constructor
    · intro h; cases h
    · rintro ⟨k, h1, h2, _⟩; omega
  | succ f ih =>
    intro a
    simp only [nonMemberLoop]
    by_cases h1 : hasNonMemberButton (s.nonMemberTextsAt a) = true
    · simp only [h1, if_true]
      exact ⟨fun _ => ⟨a, le_refl a, by omega, h1⟩, fun _ => trivial⟩
    · rw [if_neg h1]
      by_cases hf : f = 0
      · subst hf
        simp only [if_pos trivial, reduceIte]
        constructor
        · intro h; cases h
        · rintro ⟨k, hk1, hk2, hk3⟩
          have : k = a := by omega
          subst this
          exact absurd hk3 h1
      · rw [if_neg hf]
        obtain ⟨f', rfl⟩ := Nat.exists_eq_succ_of_ne_zero hf
        rw [ih (a + 1)]
        constructor
        · rintro ⟨k, hk1, hk2, hk3⟩
          exact ⟨k, by omega, by omega, hk3⟩
        · rintro ⟨k, hk1, hk2, hk3⟩
          have hka : k ≠ a := fun h => by subst h; exact absurd hk3 h1
          exact ⟨k, by omega, by omega, hk3⟩

theorem reserveLoop_not_found (s : ProbeScript) : ∀ (fuel a : Nat),
    (∀ k, a ≤ k → k < a + fuel → anchorHasReserve (s.anchorsAt k) = false) →
    (reserveLoop s a fuel).2 = false
    ∧ (reserveLoop s a fuel).1.filterMap reserveScanOf = List.range' a fuel
    ∧ (reserveLoop s a fuel).1.count PEv.reload = fuel - 1
    ∧ ∀ e ∈ (reserveLoop s a fuel).1,
        (∃ k, e = PEv.reserveScan k) ∨ e = PEv.reload ∨ e = PEv.delayMs 500 := by
  intro fuel
  induction fuel with
  | zero =>
    intro a _
    refine ⟨rfl, rfl, rfl, ?_⟩
    intro e he
    simp [reserveLoop] at he
  | succ f ih =>
    intro a hall
    have h1 : anchorHasReserve (s.anchorsAt a) = false :=
      hall a (le_refl a) (by omega)
    simp only [reserveLoop, h1, Bool.false_eq_true, if_false]
    by_cases hf : f = 0
    · subst hf
      refine ⟨rfl, rfl, rfl, ?_⟩
      intro e he
      simp at he
      exact Or.inl ⟨a, he⟩
    · rw [if_neg hf]
      obtain ⟨hfound, hscans, hcount, hshape⟩ :=
        ih (a + 1) (fun k hk1 hk2 => hall k (by omega) (by omega))
      refine ⟨hfound, ?_, ?_, ?_⟩
      · simp only [List.filterMap_cons, reserveScanOf, hscans]
        rw [List.range'_succ]
      · simp only [List.count_cons, hcount]
        simp
        omega
      · intro e he
        simp only [List.mem_cons] at he
        rcases he with rfl | rfl | rfl | he
        · exact Or.inl ⟨a, rfl⟩
        · exact Or.inr (Or.inl rfl)
        · exact Or.inr (Or.inr rfl)
        · exact hshape e he

theorem nonMemberLoop_not_found (s : ProbeScript) : ∀ (fuel a : Nat),
    (∀ k, a ≤ k → k < a + fuel → hasNonMemberButton (s.nonMemberTextsAt k) = false) →
    (nonMemberLoop s a fuel).2 = false
    ∧ (nonMemberLoop s a fuel).1.filterMap nonMemberScanOf = List.range' a fuel
    ∧ ∀ e ∈ (nonMemberLoop s a fuel).1,
        (∃ k, e = PEv.nonMemberScan k) ∨ e = PEv.delayMs 500 := by
  intro fuel
  induction fuel with
  | zero =>
    intro a _
    refine ⟨rfl, rfl, ?_⟩
    intro e he
    simp [nonMemberLoop] at he
  | succ f ih =>
    intro a hall
    have h1 : hasNonMemberButton (s.nonMemberTextsAt a) = false :=
      hall a (le_refl a) (by omega)
    simp only [nonMemberLoop, h1, Bool.false_eq_true, if_false]
    by_cases hf : f = 0
    · subst hf
      refine ⟨rfl, rfl, ?_⟩
      intro e he
      simp at he
      exact Or.inl ⟨a, he⟩
    · rw [if_neg hf]
      obtain ⟨hfound, hscans, hshape⟩ :=
        ih (a + 1) (fun k hk1 hk2 => hall k (by omega) (by omega))
      refine ⟨hfound, ?_, ?_⟩
      · simp only [List.filterMap_cons, nonMemberScanOf, hscans]
        rw [List.range'_succ]
      · intro e he
        simp only [List.mem_cons] at he
        rcases he with rfl | rfl | he
        · exact Or.inl ⟨a, rfl⟩
        · exact Or.inr rfl
        · exact hshape e he

theorem reserveLoop_events_shape (s : ProbeScript) : ∀ (fuel a : Nat),
    ∀ e ∈ (reserveLoop s a fuel).1,
      (∃ k, e = PEv.reserveScan k) ∨ e = PEv.clickReserve ∨ e = PEv.reload
        ∨ e = PEv.delayMs 500 := by
  intro fuel
  induction fuel with
  | zero => intro a e he; simp [reserveLoop] at he
  | succ f ih =>
    intro a e he
    simp only [reserveLoop] at he
    by_cases h1 : anchorHasReserve (s.anchorsAt a) = true
    · rw [if_pos h1] at he
      simp only [List.mem_cons, List.not_mem_nil, or_false] at he
      rcases he with rfl | rfl
      · exact Or.inl ⟨a, rfl⟩
      · exact Or.inr (Or.inl rfl)
    · rw [if_neg h1] at he
      by_cases hf : f = 0
      · subst hf
        simp at he
        exact Or.inl ⟨a, he⟩
      · rw [if_neg hf] at he
        simp only [List.mem_cons] at he
        rcases he with rfl | rfl | rfl | he
        · exact Or.inl ⟨a, rfl⟩
        · exact Or.inr (Or.inr (Or.inl rfl))
        · exact Or.inr (Or.inr (Or.inr rfl))
        · exact ih (a + 1) e he

/-! ## Claim C2 -/

/-- C2: once a probe has engaged both the reservation entry point and the
non-member path, the outcome is decided in priority order: a dialog
observed at the check point means `Unavailable`; otherwise a page URL
different from the post-navigation `originUrl` means `Available` carrying
the detail-panel text as `bookingName`; an unchanged URL with no dialog
means `Inconclusive`. -/
theorem probe_observation_priority (cache : EmailHistory) (now : Nat)
    (task : SearchTask) (s : ProbeScript)
    (hnp : s.newPageOk = true) (hgoto : s.gotoThrows = false)
    (hres : ∃ k, 1 ≤ k ∧ k ≤ MAX_ATTEMPTS ∧ anchorHasReserve (s.anchorsAt k) = true)
    (hnm : ∃ k, 1 ≤ k ∧ k ≤ MAX_ATTEMPTS
      ∧ hasNonMemberButton (s.nonMemberTextsAt k) = true) :
    (s.dialogAppeared = true →
      probeOutcomeOf (checkReservation cache now task s) = some .Unavailable)
    ∧ (s.dialogAppeared = false → s.finalUrl ≠ s.originUrl →
      probeOutcomeOf (checkReservation cache now task s)
        = some (.Available s.detailText))
    ∧ (s.dialogAppeared = false → s.finalUrl = s.originUrl →
      probeOutcomeOf (checkReservation cache now task s) = some .Inconclusive) := by
  have hresT : (reserveLoop s 1 MAX_ATTEMPTS).2 = true := by
    obtain ⟨k, h1, h2, h3⟩ := hres
    exact (reserveLoop_found_iff s MAX_ATTEMPTS 1).mpr ⟨k, h1, by omega, h3⟩
  have hnmT : (nonMemberLoop s 1 MAX_ATTEMPTS).2 = true := by
    obtain ⟨k, h1, h2, h3⟩ := hnm
    exact (nonMemberLoop_found_iff s MAX_ATTEMPTS 1).mpr ⟨k, h1, by omega, h3⟩
  refine ⟨?_, ?_, ?_⟩
  · intro hd
    simp [checkReservation, hnp, hgoto, hresT, hnmT, hd, probeOutcomeOf]
  · intro hd hu
    by_cases hcs : canSendEmail cache now task.url = true <;>
      simp [checkReservation, hnp, hgoto, hresT, hnmT, hd, hu, hcs, probeOutcomeOf]
  · intro hd hu
    simp [checkReservation, hnp, hgoto, hresT, hnmT, hd, hu, probeOutcomeOf]

/-- Witness for C2: a scripted page that redirects with no dialog. -/
theorem probe_observation_priority_witness :
    probeOutcomeOf (checkReservation [] 0 ⟨"5", 0, "u"⟩
      ⟨true, false, fun _ => ["바로 예약하기"], "스튜디오 A",
        fun _ => ["비회원 예약"], false, "u", "u2", ""⟩)
      = some (.Available "스튜디오 A") :=
  (probe_observation_priority [] 0 ⟨"5", 0, "u"⟩
      ⟨true, false, fun _ => ["바로 예약하기"], "스튜디오 A",
        fun _ => ["비회원 예약"], false, "u", "u2", ""⟩
      rfl rfl ⟨1, by decide, by decide, by decide⟩
      ⟨1, by decide, by decide, by decide⟩).2.1 rfl (by decide)

/-! ## Claim C7 -/

/-- C7: when no anchor ever carries the reserve marker, the probe scans
exactly 5 times with a reload (and settle delay) between attempts, then
terminates as `PageError` with the full page markup captured, having
clicked nothing, notified nobody, run no further protocol step
(in particular no non-member scan), and left the dedup cache untouched. -/
theorem reserve_retry_pageError (cache : EmailHistory) (now : Nat)
    (task : SearchTask) (s : ProbeScript)
    (hnp : s.newPageOk = true) (hgoto : s.gotoThrows = false)
    (hfail : ∀ k, 1 ≤ k → k ≤ MAX_ATTEMPTS →
      anchorHasReserve (s.anchorsAt k) = false) :
    probeOutcomeOf (checkReservation cache now task s) = some .PageError
    ∧ PEv.captureContent s.pageHtml ∈ probeEventsOf (checkReservation cache now task s)
    ∧ (probeEventsOf (checkReservation cache now task s)).filterMap reserveScanOf
        = [1, 2, 3, 4, 5]
    ∧ (probeEventsOf (checkReservation cache now task s)).count PEv.reload = 4
    ∧ PEv.clickReserve ∉ probeEventsOf (checkReservation cache now task s)
    ∧ PEv.clickNonMember ∉ probeEventsOf (checkReservation cache now task s)
    ∧ (∀ k, PEv.nonMemberScan k ∉ probeEventsOf (checkReservation cache now task s))
    ∧ (∀ u, PEv.notify u ∉ probeEventsOf (checkReservation cache now task s))
    ∧ probeCacheOf cache (checkReservation cache now task s) = cache := by
  obtain ⟨hfound, hscans, hcount, hshape⟩ :=
    reserveLoop_not_found s MAX_ATTEMPTS 1
      (fun k hk1 hk2 => hfail k hk1 (by omega))
  have heq : checkReservation cache now task s =
      .ok ⟨[PEv.pageOpen, PEv.gotoUrl task.url] ++ (reserveLoop s 1 MAX_ATTEMPTS).1
            ++ [PEv.captureContent s.pageHtml, PEv.pageClose, PEv.delayMs 1000],
          some .PageError, cache⟩ := by
    simp [checkReservation, hnp, hgoto, hfound]
  rw [heq]
  refine ⟨rfl, ?_, ?_, ?_, ?_, ?_, ?_, ?_, rfl⟩
  · simp [probeEventsOf]
  · simp only [probeEventsOf, List.filterMap_append, hscans]
    simp [reserveScanOf]
    decide
  · simp only [probeEventsOf, List.count_append, hcount]
    simp [List.count_cons]
    decide
  · intro h
    simp [probeEventsOf] at h
    rcases hshape _ h with ⟨k, hk⟩ | hk | hk <;> cases hk
  · intro h
    simp [probeEventsOf] at h
    rcases hshape _ h with ⟨k, hk⟩ | hk | hk <;> cases hk
  · intro k h
    simp [probeEventsOf] at h
    rcases hshape _ h with ⟨k', hk⟩ | hk | hk <;> cases hk
  · intro u h
    simp [probeEventsOf] at h
    rcases hshape _ h with ⟨k', hk⟩ | hk | hk <;> cases hk

/-- Witness for C7: a page whose anchors never show the marker. -/
theorem reserve_retry_pageError_witness :
    probeOutcomeOf (checkReservation [] 0 ⟨"5", 0, "u"⟩
      ⟨true, false, fun _ => ["로그인"], "", fun _ => [], false, "u", "u", "<html>"⟩)
      = some .PageError
    ∧ (probeEventsOf (checkReservation [] 0 ⟨"5", 0, "u"⟩
        ⟨true, false, fun _ => ["로그인"], "", fun _ => [], false, "u", "u",
          "<html>"⟩)).count PEv.reload = 4 := by
  have h := reserve_retry_pageError [] 0 ⟨"5", 0, "u"⟩
    ⟨true, false, fun _ => ["로그인"], "", fun _ => [], false, "u", "u", "<html>"⟩
    rfl rfl (fun k _ _ => by
      change anchorHasReserve ["로그인"] = false
      decide)
  exact ⟨h.1, h.2.2.2.1⟩

/-! ## Claim C8 -/

/-- C8: after the reservation entry point is engaged, a non-member button
that never appears is retried exactly 5 times (one scan per attempt) and
exhaustion terminates the probe as `Inconclusive` — distinct from
`PageError` — with no notification, no markup capture, and the dedup cache
untouched. -/
theorem nonmember_retry_inconclusive (cache : EmailHistory) (now : Nat)
    (task : SearchTask) (s : ProbeScript)
    (hnp : s.newPageOk = true) (hgoto : s.gotoThrows = false)
    (hres : ∃ k, 1 ≤ k ∧ k ≤ MAX_ATTEMPTS ∧ anchorHasReserve (s.anchorsAt k) = true)
    (hfail : ∀ k, 1 ≤ k → k ≤ MAX_ATTEMPTS →
      hasNonMemberButton (s.nonMemberTextsAt k) = false) :
    probeOutcomeOf (checkReservation cache now task s) = some .Inconclusive
    ∧ (probeEventsOf (checkReservation cache now task s)).filterMap nonMemberScanOf
        = [1, 2, 3, 4, 5]
    ∧ (∀ u, PEv.notify u ∉ probeEventsOf (checkReservation cache now task s))
    ∧ (∀ html, PEv.captureContent html
        ∉ probeEventsOf (checkReservation cache now task s))
    ∧ probeCacheOf cache (checkReservation cache now task s) = cache
    ∧ (ProbeOutcome.Inconclusive ≠ ProbeOutcome.PageError) := by
  have hresT : (reserveLoop s 1 MAX_ATTEMPTS).2 = true := by
    obtain ⟨k, h1, h2, h3⟩ := hres
    exact (reserveLoop_found_iff s MAX_ATTEMPTS 1).mpr ⟨k, h1, by omega, h3⟩
  obtain ⟨hnmF, hnmScans, hnmShape⟩ :=
    nonMemberLoop_not_found s MAX_ATTEMPTS 1
      (fun k hk1 hk2 => hfail k hk1 (by omega))
  have heq : checkReservation cache now task s =
      .ok ⟨[PEv.pageOpen, PEv.gotoUrl task.url]
            ++ ((reserveLoop s 1 MAX_ATTEMPTS).1 ++ [PEv.delayMs 500]
                ++ (nonMemberLoop s 1 MAX_ATTEMPTS).1)
            ++ [PEv.pageClose, PEv.delayMs 1000],
          some .Inconclusive, cache⟩ := by
    simp [checkReservation, hnp, hgoto, hresT, hnmF]
  rw [heq]
  have hresNone : (reserveLoop s 1 MAX_ATTEMPTS).1.filterMap nonMemberScanOf = [] := by
    rw [List.filterMap_eq_nil_iff]
    intro e he
    rcases reserveLoop_events_shape s MAX_ATTEMPTS 1 e he with ⟨k, rfl⟩ | rfl | rfl | rfl
      <;> rfl
  refine ⟨rfl, ?_, ?_, ?_, rfl, by intro h; cases h⟩
  · simp only [probeEventsOf, List.filterMap_append, hresNone, hnmScans]
    simp [nonMemberScanOf]
    decide
  · intro u h
    simp [probeEventsOf] at h
    rcases h with h | h
    · rcases reserveLoop_events_shape s MAX_ATTEMPTS 1 _ h with ⟨k, hk⟩ | hk | hk | hk
        <;> cases hk
    · rcases hnmShape _ h with ⟨k, hk⟩ | hk <;> cases hk
  · intro html h
    simp [probeEventsOf] at h
    rcases h with h | h
    · rcases reserveLoop_events_shape s MAX_ATTEMPTS 1 _ h with ⟨k, hk⟩ | hk | hk | hk
        <;> cases hk
    · rcases hnmShape _ h with ⟨k, hk⟩ | hk <;> cases hk

/-- Witness for C8: the reserve anchor is present, the non-member button
never is. -/
theorem nonmember_retry_inconclusive_witness :
    probeOutcomeOf (checkReservation [] 0 ⟨"5", 0, "u"⟩
      ⟨true, false, fun _ => ["예약하기"], "이름", fun _ => ["로그인"],
        false, "u", "u", ""⟩) = some .Inconclusive
    ∧ (probeEventsOf (checkReservation [] 0 ⟨"5", 0, "u"⟩
        ⟨true, false, fun _ => ["예약하기"], "이름", fun _ => ["로그인"],
          false, "u", "u", ""⟩)).filterMap nonMemberScanOf = [1, 2, 3, 4, 5] := by
  have h := nonmember_retry_inconclusive [] 0 ⟨"5", 0, "u"⟩
    ⟨true, false, fun _ => ["예약하기"], "이름", fun _ => ["로그인"],
      false, "u", "u", ""⟩
    rfl rfl ⟨1, by decide, by decide, by decide⟩
    (fun k _ _ => by
      change hasNonMemberButton ["로그인"] = false
      decide)
  exact ⟨h.1, h.2.1⟩

theorem nonMemberLoop_events_shape (s : ProbeScript) : ∀ (fuel a : Nat),
    ∀ e ∈ (nonMemberLoop s a fuel).1,
      (∃ k, e = PEv.nonMemberScan k) ∨ e = PEv.clickNonMember
        ∨ e = PEv.delayMs 500 := by
  intro fuel
  induction fuel with
  | zero => intro a e he; simp [nonMemberLoop] at he
  | succ f ih =>
    intro a e he
    simp only [nonMemberLoop] at he
    by_cases h1 : hasNonMemberButton (s.nonMemberTextsAt a) = true
    · rw [if_pos h1] at he
      simp only [List.mem_cons, List.not_mem_nil, or_false] at he
      rcases he with rfl | rfl
      · exact Or.inl ⟨a, rfl⟩
      · exact Or.inr (Or.inl rfl)
    · rw [if_neg h1] at he
      by_cases hf : f = 0
      · subst hf
        simp at he
        exact Or.inl ⟨a, he⟩
      · rw [if_neg hf] at he
        simp only [List.mem_cons] at he
        rcases he with rfl | rfl | he
        · exact Or.inl ⟨a, rfl⟩
        · exact Or.inr (Or.inr rfl)
        · exact ih (a + 1) e he

/-! ## Claim C9 -/

/-- C9 counterexample: a probe whose `browser.newPage()` call rejects.
That call (line 337) stands *outside* the `try/finally` of
`checkReservation`, so the rejection escapes the task: the probe's promise
ends in the error state — a per-task failure that does propagate out of the
task boundary (to `Promise.all` and from there to the cycle), unlike what
the claim states. -/
theorem newPage_failure_propagates :
    checkReservation [] 0 ⟨"5", 0, "u"⟩
      ⟨false, false, fun _ => [], "", fun _ => [], false, "", "", ""⟩
      = .error ()
    ∧ probeOk (checkReservation [] 0 ⟨"5", 0, "u"⟩
        ⟨false, false, fun _ => [], "", fun _ => [], false, "", "", ""⟩)
      = false :=
  ⟨rfl, rfl⟩

/-- C9 (amended): for every probe whose page-open call succeeds, exactly
one page is opened, it is the first interaction, it is closed exactly once
on every exit path — including the path where an exception is thrown
mid-probe and swallowed by the `catch` — and no failure of the probe body
escapes the task (the result is always `ok`). -/
theorem page_lifecycle_contained (cache : EmailHistory) (now : Nat)
    (task : SearchTask) (s : ProbeScript) (hnp : s.newPageOk = true) :
    probeOk (checkReservation cache now task s) = true
    ∧ (probeEventsOf (checkReservation cache now task s)).count PEv.pageOpen = 1
    ∧ (probeEventsOf (checkReservation cache now task s)).count PEv.pageClose = 1
    ∧ (probeEventsOf (checkReservation cache now task s)).head?
        = some PEv.pageOpen := by
  have hro : (reserveLoop s 1 MAX_ATTEMPTS).1.count PEv.pageOpen = 0 := by
    rw [List.count_eq_zero]
    intro h
    rcases reserveLoop_events_shape s MAX_ATTEMPTS 1 _ h with ⟨k, hk⟩ | hk | hk | hk
      <;> cases hk
  have hrc : (reserveLoop s 1 MAX_ATTEMPTS).1.count PEv.pageClose = 0 := by
    rw [List.count_eq_zero]
    intro h
    rcases reserveLoop_events_shape s MAX_ATTEMPTS 1 _ h with ⟨k, hk⟩ | hk | hk | hk
      <;> cases hk
  have hno : (nonMemberLoop s 1 MAX_ATTEMPTS).1.count PEv.pageOpen = 0 := by
    rw [List.count_eq_zero]
    intro h
    rcases nonMemberLoop_events_shape s MAX_ATTEMPTS 1 _ h with ⟨k, hk⟩ | hk | hk
      <;> cases hk
  have hnc : (nonMemberLoop s 1 MAX_ATTEMPTS).1.count PEv.pageClose = 0 := by
    rw [List.count_eq_zero]
    intro h
    rcases nonMemberLoop_events_shape s MAX_ATTEMPTS 1 _ h with ⟨k, hk⟩ | hk | hk
      <;> cases hk
  by_cases hg : s.gotoThrows = true
  · refine ⟨?_, ?_, ?_, ?_⟩ <;>
      simp [checkReservation, hnp, hg, probeOk, probeEventsOf, List.count_cons]
  · replace hg : s.gotoThrows = false := by
      revert hg; cases s.gotoThrows <;> simp
    by_cases hrf : (reserveLoop s 1 MAX_ATTEMPTS).2 = false
    · refine ⟨?_, ?_, ?_, ?_⟩ <;>
        simp [checkReservation, hnp, hg, hrf, probeOk, probeEventsOf,
          List.count_append, List.count_cons, hro, hrc]
    · by_cases hnf : (nonMemberLoop s 1 MAX_ATTEMPTS).2 = false
      · refine ⟨?_, ?_, ?_, ?_⟩ <;>
          simp [checkReservation, hnp, hg, hrf, hnf, probeOk, probeEventsOf,
            List.count_append, List.count_cons, hro, hrc, hno, hnc]
      · by_cases hd : s.dialogAppeared = true
        · refine ⟨?_, ?_, ?_, ?_⟩ <;>
            simp [checkReservation, hnp, hg, hrf, hnf, hd, probeOk, probeEventsOf,
              List.count_append, List.count_cons, hro, hrc, hno, hnc]
        · by_cases hu : s.finalUrl = s.originUrl
          · refine ⟨?_, ?_, ?_, ?_⟩ <;>
              simp [checkReservation, hnp, hg, hrf, hnf, hd, hu, probeOk,
                probeEventsOf, List.count_append, List.count_cons, hro, hrc,
                hno, hnc]
          · by_cases hcs : canSendEmail cache now task.url = true
            · refine ⟨?_, ?_, ?_, ?_⟩ <;>
                simp [checkReservation, hnp, hg, hrf, hnf, hd, hu, hcs, probeOk,
                  probeEventsOf, List.count_append, List.count_cons, hro, hrc,
                  hno, hnc]
            · refine ⟨?_, ?_, ?_, ?_⟩ <;>
                simp [checkReservation, hnp, hg, hrf, hnf, hd, hu, hcs, probeOk,
                  probeEventsOf, List.count_append, List.count_cons, hro, hrc,
                  hno, hnc]

/-- Witness for C9's amended theorem: the exception path (`page.goto`
rejects) still opens and closes exactly one page and resolves normally. -/
theorem page_lifecycle_contained_witness :
    probeOk (checkReservation [] 0 ⟨"5", 0, "u"⟩
      ⟨true, true, fun _ => [], "", fun _ => [], false, "", "", ""⟩) = true
    ∧ (probeEventsOf (checkReservation [] 0 ⟨"5", 0, "u"⟩
        ⟨true, true, fun _ => [], "", fun _ => [], false, "", "", ""⟩)).count
        PEv.pageClose = 1 := by
  have h := page_lifecycle_contained [] 0 ⟨"5", 0, "u"⟩
    ⟨true, true, fun _ => [], "", fun _ => [], false, "", "", ""⟩ rfl
  exact ⟨h.1, h.2.2.1⟩

theorem chunksOfAux_fuel_irrel {α : Type _} (k : Nat) (hk : 1 ≤ k) :
    ∀ (f1 : Nat) (l : List α) (f2 : Nat), l.length ≤ f1 → l.length ≤ f2 →
      chunksOfAux k f1 l = chunksOfAux k f2 l := by
  intro f1
  induction f1 with
  | zero =>
    intro l f2 h1 h2
    obtain rfl : l = [] := List.length_eq_zero.mp (by omega)
    cases f2 <;> rfl
  | succ a ih =>
    intro l f2 h1 h2
    cases l with
    | nil => cases f2 <;> rfl
    | cons x xs =>
      simp only [List.length_cons] at h1 h2
      obtain ⟨b, rfl⟩ : ∃ b, f2 = b + 1 := by
        cases f2 with
        | zero => omega
        | succ b => exact ⟨b, rfl⟩
      simp only [chunksOfAux]
      congr 1
      apply ih
      · simp only [List.length_drop, List.length_cons]
        omega
      · simp only [List.length_drop, List.length_cons]
        omega

theorem chunksOf_cons_block {α : Type _} (k : Nat) (hk : 1 ≤ k)
    (l1 l2 : List α) (h1 : l1.length = k) :
    chunksOf k (l1 ++ l2) = l1 :: chunksOf k l2 := by
  have hk0 : ¬ k = 0 := by omega
  rw [chunksOf, chunksOf, if_neg hk0, if_neg hk0]
  cases l1 with
  | nil =>
    rw [List.length_nil] at h1
    omega
  | cons y ys =>
    have htake : (y :: (ys ++ l2)).take k = y :: ys := by
      rw [← List.cons_append]
      exact List.take_left' h1
    have hdrop : (y :: (ys ++ l2)).drop k = l2 := by
      rw [← List.cons_append]
      exact List.drop_left' h1
    have hlen : ((y :: ys) ++ l2).length = (ys ++ l2).length + 1 := by
      simp only [List.length_append, List.length_cons]
      omega
    rw [hlen]
    simp only [List.cons_append, chunksOfAux, List.append_eq, htake, hdrop]
    congr 1
    apply chunksOfAux_fuel_irrel k hk
    · simp only [List.length_append]
      omega
    · omega

theorem chunksOf_generateTasks (targets : List String) (today : Nat) :
    chunksOf CONCURRENT_LIMIT (generateTasks targets today)
      = targets.map fun idx =>
          (getWeekDates today).map fun date =>
            (⟨idx, date, makeUrl idx date⟩ : SearchTask) := by
  induction targets with
  | nil => rfl
  | cons x ts ih =>
    have hblock : ((getWeekDates today).map fun date =>
        (⟨x, date, makeUrl x date⟩ : SearchTask)).length = CONCURRENT_LIMIT := by
      rw [List.length_map, getWeekDates_eq, List.length_range']
      rfl
    have hsplit : generateTasks (x :: ts) today
        = ((getWeekDates today).map fun date =>
            (⟨x, date, makeUrl x date⟩ : SearchTask))
          ++ generateTasks ts today := by
      simp only [generateTasks, List.flatMap_cons]
    rw [hsplit, chunksOf_cons_block CONCURRENT_LIMIT (by decide) _ _ hblock, ih,
      List.map_cons]

/-! ## Claim C1 -/

/-- C1 counterexample: the atomicity sentence of the claim is false of the
code.  In the statement sequence of the `Available`-notification branch
(lines 470-480), the awaited Notifier call `await sendEmail(...)`
(line 472) stands strictly between the `canSendEmail` check (line 470) and
the `recordEmailSent` update (line 478), and it is a suspension point of
the cooperative scheduler: the steps between the check and the record are
not suspension-free, so the pair is not an atomic unit. -/
theorem notify_check_record_not_atomic :
    ((notifyPathSteps.drop
        (notifyPathSteps.indexOf NotifyStep.checkCanSend + 1)).takeWhile
        (fun s => s != NotifyStep.recordSent)).any isAwaitStep = true
    ∧ notifyPathSteps.indexOf NotifyStep.checkCanSend
        < notifyPathSteps.indexOf NotifyStep.awaitSendEmail
    ∧ notifyPathSteps.indexOf NotifyStep.awaitSendEmail
        < notifyPathSteps.indexOf NotifyStep.recordSent
    ∧ isAwaitStep NotifyStep.awaitSendEmail = true := by
  decide

/-- C1 (amended): on `Available` the Notifier is invoked exactly when
`canSendEmail` holds at that moment, and the send is recorded afterwards;
for any two tasks with the same url both resolving `Available` within one
cooldown window exactly one Notifier invocation occurs, and a further
`Available` for the same url after the cooldown elapses produces a second
invocation — the guarantee is unconditional even though the check and the
record are separated by the awaited Notifier send, because same-url tasks
are never co-scheduled: every `Promise.all` chunk of the generated task
list is exactly one target's block of 7 distinct-date tasks
(`CONCURRENT_LIMIT = 7` equals the window length, so chunk boundaries
coincide with the target blocks; the url differs in its date component
within a block), and chunks and cycles are strictly sequentialized by the
`await Promise.all` barrier, each task's record completing before any
later task's check.  Conjuncts: the chunk/block alignment; one target and
pairwise-distinct dates per chunk; the invoke-iff-canSend law of the
check block; and the run-to-completion execution of same-url paths
sending exactly once within the window and again after it. -/
theorem notify_exactly_once_per_cooldown (targets : List String) (today : Nat)
    (u : String) (t1 t2 t3 : Nat)
    (h1 : 0 < t1) (h2 : t2 - t1 < EMAIL_COOLDOWN_MS)
    (h3 : EMAIL_COOLDOWN_MS ≤ t3 - t1) :
    chunksOf CONCURRENT_LIMIT (generateTasks targets today)
      = (targets.map fun idx =>
          (getWeekDates today).map fun date =>
            (⟨idx, date, makeUrl idx date⟩ : SearchTask))
    ∧ (∀ chunk ∈ chunksOf CONCURRENT_LIMIT (generateTasks targets today),
        (∀ ta ∈ chunk, ∀ tb ∈ chunk, ta.idx = tb.idx)
        ∧ (chunk.map SearchTask.date).Nodup)
    ∧ (∀ (cache : EmailHistory) (sends : Nat) (t : NotifyTask), t.pc = 0 →
        ((notifyRunBlock t cache sends).2.2 = sends + 1 ↔
          canSendEmail cache t.now t.url = true))
    ∧ (notifySched ⟨[⟨u, t1, 0⟩, ⟨u, t2, 0⟩], [], 0⟩ (seqSchedule 2)).sends = 1
    ∧ (notifySched ⟨[⟨u, t1, 0⟩, ⟨u, t2, 0⟩, ⟨u, t3, 0⟩], [], 0⟩
        (seqSchedule 3)).sends = 2 := by
  have hs2 : seqSchedule 2 = [0, 0, 1, 1] := rfl
  have hs3 : seqSchedule 3 = [0, 0, 1, 1, 2, 2] := rfl
  have hcond2 : ¬(t1 = 0 ∨ EMAIL_COOLDOWN_MS ≤ t2 - t1) := by omega
  have hcond3 : t1 = 0 ∨ EMAIL_COOLDOWN_MS ≤ t3 - t1 := Or.inr h3
  refine ⟨chunksOf_generateTasks targets today, ?_, ?_, ?_, ?_⟩
  · intro chunk hmem
    rw [chunksOf_generateTasks] at hmem
    obtain ⟨idx, hidx, rfl⟩ := List.mem_map.mp hmem
    constructor
    · intro ta hta tb htb
      obtain ⟨da, _, rfl⟩ := List.mem_map.mp hta
      obtain ⟨db, _, rfl⟩ := List.mem_map.mp htb
      rfl
    · have hmm : (((getWeekDates today).map fun date =>
          (⟨idx, date, makeUrl idx date⟩ : SearchTask)).map SearchTask.date)
          = getWeekDates today := by
        rw [List.map_map]
        exact List.map_id _
      rw [hmm, getWeekDates_eq]
      exact (List.pairwise_lt_range' today 7).imp fun h => Nat.ne_of_lt h
  · intro cache sends t hpc
    by_cases hcs : canSendEmail cache t.now t.url = true <;>
      simp [notifyRunBlock, hpc, hcs]
  · rw [hs2]
    simp [notifySched, notifyRunBlock, canSendEmail, histLookup,
      recordEmailSent, hcond2]
  · rw [hs3]
    simp [notifySched, notifyRunBlock, canSendEmail, histLookup,
      recordEmailSent, hcond2, hcond3]

/-- Witness for C1's amended theorem: a duplicated target (yielding
same-url tasks, one block apart) and concrete clock readings. -/
theorem notify_exactly_once_per_cooldown_witness :
    chunksOf CONCURRENT_LIMIT (generateTasks ["5", "5"] 100)
      = (["5", "5"].map fun idx =>
          (getWeekDates 100).map fun date =>
            (⟨idx, date, makeUrl idx date⟩ : SearchTask))
    ∧ (notifySched ⟨[⟨"u", 1, 0⟩, ⟨"u", 2, 0⟩], [], 0⟩ (seqSchedule 2)).sends = 1
    ∧ (notifySched ⟨[⟨"u", 1, 0⟩, ⟨"u", 2, 0⟩,
        ⟨"u", EMAIL_COOLDOWN_MS + 1, 0⟩], [], 0⟩ (seqSchedule 3)).sends = 2 := by
  have h := notify_exactly_once_per_cooldown ["5", "5"] 100 "u" 1 2
    (EMAIL_COOLDOWN_MS + 1) (by decide) (by decide) (by simp)
  exact ⟨h.1, h.2.2.2.1, h.2.2.2.2⟩

theorem chunksOfAux_length_le (k : Nat) : ∀ (fuel : Nat) (l : List Nat),
    ∀ c ∈ chunksOfAux k fuel l, c.length ≤ k := by
  intro fuel
  induction fuel with
  | zero => intro l c hc; simp [chunksOfAux] at hc
  | succ f ih =>
    intro l c hc
    cases l with
    | nil => simp [chunksOfAux] at hc
    | cons x xs =>
      simp only [chunksOfAux, List.mem_cons] at hc
      rcases hc with rfl | hc
      · simp
      · exact ih _ c hc

theorem chunksOfAux_flatten (k : Nat) (hk : 1 ≤ k) : ∀ (fuel : Nat) (l : List Nat),
    l.length ≤ fuel → (chunksOfAux k fuel l).flatten = l := by
  intro fuel
  induction fuel with
  | zero =>
    intro l hl
    obtain rfl : l = [] := List.length_eq_zero.mp (by omega)
    rfl
  | succ f ih =>
    intro l hl
    cases l with
    | nil => rfl
    | cons x xs =>
      simp only [chunksOfAux, List.flatten_cons]
      simp only [List.length_cons] at hl
      rw [ih ((x :: xs).drop k)
        (by simp only [List.length_drop, List.length_cons]; omega)]
      exact List.take_append_drop k (x :: xs)

theorem chunksOf_length_le (k : Nat) (l : List Nat) :
    ∀ c ∈ chunksOf k l, c.length ≤ k := by
  intro c hc
  rw [chunksOf] at hc
  by_cases hk : k = 0
  · simp [hk] at hc
  · rw [if_neg hk] at hc
    exact chunksOfAux_length_le k l.length l c hc

theorem chunksOf_flatten (k : Nat) (l : List Nat) (hk : 1 ≤ k) :
    (chunksOf k l).flatten = l := by
  rw [chunksOf, if_neg (by omega)]
  exact chunksOfAux_flatten k hk l.length l (le_refl _)

theorem IsChunkTrace.taskOf_mem {chunk : List Nat} {tr : List SEv}
    (h : IsChunkTrace chunk tr) {e : SEv} (he : e ∈ tr) : taskOf e ∈ chunk := by
  have hmem : e ∈ chunk.flatMap taskEvs := h.1.mem_iff.mpr he
  rw [List.mem_flatMap] at hmem
  obtain ⟨t, ht, hte⟩ := hmem
  simp only [taskEvs, List.mem_cons, List.not_mem_nil, or_false] at hte
  rcases hte with rfl | rfl <;> exact ht

theorem IsChunkTrace.events_mem {chunk : List Nat} {tr : List SEv}
    (h : IsChunkTrace chunk tr) {t : Nat} (ht : t ∈ chunk) :
    SEv.tStart t ∈ tr ∧ SEv.tEnd t ∈ tr := by
  constructor
  · exact h.1.mem_iff.mp (List.mem_flatMap.mpr ⟨t, ht, by simp [taskEvs]⟩)
  · exact h.1.mem_iff.mp (List.mem_flatMap.mpr ⟨t, ht, by simp [taskEvs]⟩)

/-! ## Claim C4 -/

/-- C4: the batching loop of `runCrawlingCycle` partitions the ordered task
list into consecutive chunks of size at most `K` (`CONCURRENT_LIMIT = 7` by
default; `K = 3` over 7 tasks gives exactly the chunk sizes `3, 3, 1`),
their concatenation being the original list; and in every trace the
scheduler admits — chunk sub-traces concatenated, tasks interleaving only
within their chunk — every event of a chunk-`i` task precedes every event
of a chunk-`j` task for `i < j`: in particular a later chunk's task starts
only after every earlier chunk's task has ended. -/
theorem batch_scheduler_spec :
    CONCURRENT_LIMIT = 7
    ∧ (∀ (k : Nat) (l : List Nat), ∀ c ∈ chunksOf k l, c.length ≤ k)
    ∧ (∀ (k : Nat) (l : List Nat), 1 ≤ k → (chunksOf k l).flatten = l)
    ∧ (chunksOf 3 (List.range 7)).map List.length = [3, 3, 1]
    ∧ (∀ (k : Nat) (tasks : List Nat) (tr : List SEv), tasks.Nodup →
        IsBatchedTrace k tasks tr →
        ∀ i j a b, i < j →
          a ∈ (chunksOf k tasks).getD i [] → b ∈ (chunksOf k tasks).getD j [] →
          ∃ pre post, tr = pre ++ post
            ∧ SEv.tEnd a ∈ pre ∧ SEv.tStart b ∈ post
            ∧ (∀ e ∈ pre, taskOf e ≠ b)
            ∧ (∀ e ∈ post, taskOf e ≠ a)) := by
  refine ⟨rfl, chunksOf_length_le, chunksOf_flatten, by decide, ?_⟩
  intro k tasks tr hnodup hB i j a b hij ha hb
  obtain ⟨blocks, rfl, hF⟩ := hB
  have hlen : (chunksOf k tasks).length = blocks.length := hF.length_eq
  have hget := List.forall₂_iff_get.mp hF
  -- the getD memberships force the indices into range
  have hj : j < (chunksOf k tasks).length := by
    by_contra hcon
    rw [List.getD_eq_default _ _ (by omega)] at hb
    exact absurd hb (List.not_mem_nil b)
  have hi : i < (chunksOf k tasks).length := by omega
  rw [List.getD_eq_getElem _ _ hi] at ha
  rw [List.getD_eq_getElem _ _ hj] at hb
  -- k = 0 gives no chunks at all, contradicting hi
  have hk : 1 ≤ k := by
    by_contra hcon
    have : k = 0 := by omega
    subst this
    simp [chunksOf] at hi
  -- chunk disjointness from Nodup of the flattened task list
  have hdisj : List.Pairwise List.Disjoint (chunksOf k tasks) := by
    have hfl := chunksOf_flatten k tasks hk
    have hflat : (chunksOf k tasks).flatten.Nodup := by rw [hfl]; exact hnodup
    exact (List.nodup_flatten.mp hflat).2
  have hdisj' := List.pairwise_iff_get.mp hdisj
  refine ⟨(blocks.take (i + 1)).flatten, (blocks.drop (i + 1)).flatten, ?_, ?_, ?_, ?_, ?_⟩
  · rw [← List.flatten_append, List.take_append_drop]
  · -- tEnd a sits in block i, inside the prefix
    have hib : i < blocks.length := by omega
    have hmem : SEv.tEnd a ∈ blocks[i] :=
      (IsChunkTrace.events_mem (hget.2 i hi hib) ha).2
    refine List.mem_flatten.mpr ⟨blocks[i], ?_, hmem⟩
    have hlt : i < (blocks.take (i + 1)).length := by
      rw [List.length_take]
      omega
    have : (blocks.take (i + 1))[i] = blocks[i] := List.getElem_take _
    exact this ▸ List.getElem_mem hlt
  · -- tStart b sits in block j, inside the suffix
    have hjb : j < blocks.length := by omega
    have hmem : SEv.tStart b ∈ blocks[j] :=
      (IsChunkTrace.events_mem (hget.2 j hj hjb) hb).1
    refine List.mem_flatten.mpr ⟨blocks[j], ?_, hmem⟩
    have hlt : j - (i + 1) < (blocks.drop (i + 1)).length := by
      rw [List.length_drop]
      omega
    have : (blocks.drop (i + 1))[j - (i + 1)] = blocks[j] := by
      rw [List.getElem_drop]
      congr 1
      omega
    exact this ▸ List.getElem_mem hlt
  · -- nothing in the prefix belongs to task b
    intro e he heq
    rw [List.mem_flatten] at he
    obtain ⟨bl, hbl, hebl⟩ := he
    obtain ⟨m, hm, hblm⟩ := List.mem_iff_getElem.mp hbl
    have hm' : m < blocks.length := by
      rw [List.length_take] at hm
      omega
    have hmi : m ≤ i := by
      rw [List.length_take] at hm
      omega
    have hmc : m < (chunksOf k tasks).length := by omega
    have hble : bl = blocks[m] := by
      rw [← hblm, List.getElem_take]
    subst hble
    have hbm : taskOf e ∈ (chunksOf k tasks)[m] :=
      IsChunkTrace.taskOf_mem (hget.2 m hmc hm') hebl
    rw [heq] at hbm
    by_cases hmj : m = j
    · omega
    · exact hdisj' ⟨m, by omega⟩ ⟨j, by omega⟩ (Fin.mk_lt_mk.mpr (by omega)) hbm hb
  · -- nothing in the suffix belongs to task a
    intro e he heq
    rw [List.mem_flatten] at he
    obtain ⟨bl, hbl, hebl⟩ := he
    obtain ⟨m, hm, hblm⟩ := List.mem_iff_getElem.mp hbl
    have hm' : i + 1 + m < blocks.length := by
      rw [List.length_drop] at hm
      omega
    have hmc : i + 1 + m < (chunksOf k tasks).length := by omega
    have hble : bl = blocks[i + 1 + m] := by
      rw [← hblm, List.getElem_drop]
    subst hble
    have ham : taskOf e ∈ (chunksOf k tasks)[i + 1 + m] :=
      IsChunkTrace.taskOf_mem (hget.2 (i + 1 + m) hmc hm') hebl
    rw [heq] at ham
    exact hdisj' ⟨i, by omega⟩ ⟨i + 1 + m, by omega⟩ (Fin.mk_lt_mk.mpr (by omega)) ha ham

/-- Witness for C4's ordering guarantee on a concrete batched trace:
`k = 2`, tasks `[0, 1, 2]`, the chunk `[0, 1]` interleaving as
`s0 s1 e1 e0` before chunk `[2]` runs. -/
theorem batch_scheduler_spec_witness :
    ∃ pre post,
      [SEv.tStart 0, SEv.tStart 1, SEv.tEnd 1, SEv.tEnd 0,
        SEv.tStart 2, SEv.tEnd 2] = pre ++ post
      ∧ SEv.tEnd 0 ∈ pre ∧ SEv.tStart 2 ∈ post
      ∧ (∀ e ∈ pre, taskOf e ≠ 2)
      ∧ (∀ e ∈ post, taskOf e ≠ 0) := by
  have hB : IsBatchedTrace 2 [0, 1, 2]
      [SEv.tStart 0, SEv.tStart 1, SEv.tEnd 1, SEv.tEnd 0,
        SEv.tStart 2, SEv.tEnd 2] := by
    refine ⟨[[SEv.tStart 0, SEv.tStart 1, SEv.tEnd 1, SEv.tEnd 0],
      [SEv.tStart 2, SEv.tEnd 2]], rfl, ?_⟩
    have hchunks : chunksOf 2 [0, 1, 2] = [[0, 1], [2]] := rfl
    rw [hchunks]
    refine List.Forall₂.cons ⟨?_, ?_⟩ (List.Forall₂.cons ⟨?_, ?_⟩ List.Forall₂.nil)
    · decide
    · decide
    · decide
    · decide
  exact batch_scheduler_spec.2.2.2.2 2 [0, 1, 2] _ (by decide) hB 0 1 0 2
    (by decide) (by decide) (by decide)

theorem runCrawlingCycle_trace_head (cache : EmailHistory) (now : Nat)
    (targets : List String) (today : Nat) (launchOk : Bool)
    (scripts : SearchTask → ProbeScript) :
    (runCrawlingCycle cache now targets today launchOk scripts).1.head?
      = some CEv.cleanupEv
    ∧ (runCrawlingCycle cache now targets today launchOk scripts).1[1]?
      = some (CEv.windowEv 7)
    ∧ ∃ m, (runCrawlingCycle cache now targets today launchOk scripts).1[2]?
      = some (CEv.genTasksEv m) := by
  have hwl : (getWeekDates today).length = 7 := by
    rw [getWeekDates_eq, List.length_range']
  by_cases hl : launchOk = false <;>
    exact ⟨by simp [runCrawlingCycle, hl],
      by simp [runCrawlingCycle, hl, hwl],
      ⟨(generateTasks targets today).length, by simp [runCrawlingCycle, hl]⟩⟩

/-! ## Claim C10 -/

/-- C10: the main loop keeps producing cycle attempts — after any `n`
iterations exactly `n` further attempts are logged, for every input
sequence, including ones whose cycles all fail; every logged attempt's
trace starts with the dedup-cache cleanup, then the recomputed 7-day
window, then the task generation; and an iteration whose browser launch
fails is caught and logged as a failed attempt (after which the loop, by
the first part, still performs every later iteration). -/
theorem main_loop_forever (inps : Nat → CycleInput) (start n : Nat)
    (st : LoopState) :
    (mainLoop inps start n st).log.length = st.log.length + n
    ∧ (∀ tr ok, (tr, ok) ∈ (mainLoop inps start n st).log →
        (tr, ok) ∈ st.log
        ∨ (tr.head? = some CEv.cleanupEv
            ∧ tr[1]? = some (CEv.windowEv 7)
            ∧ ∃ m, tr[2]? = some (CEv.genTasksEv m)))
    ∧ (∀ (inp : CycleInput) (st' : LoopState), inp.launchOk = false →
        ∃ tr, (mainLoopStep inp st').log = st'.log ++ [(tr, false)]
          ∧ tr.head? = some CEv.cleanupEv) := by
  refine ⟨?_, ?_, ?_⟩
  · induction n generalizing start st with
    | zero => rfl
    | succ m ih =>
      rw [mainLoop, ih]
      simp [mainLoopStep]
      omega
  · induction n generalizing start st with
    | zero => intro tr ok h; exact Or.inl h
    | succ m ih =>
      intro tr ok h
      rw [mainLoop] at h
      rcases ih (start + 1) (mainLoopStep (inps start) st) tr ok h with hmem | hprops
      · simp only [mainLoopStep, List.mem_append, List.mem_singleton] at hmem
        rcases hmem with hmem | hmem
        · exact Or.inl hmem
        · right
          have htr : tr = (runCrawlingCycle st.cache (inps start).now
              (inps start).targets (inps start).today (inps start).launchOk
              (inps start).scripts).1 := congrArg Prod.fst hmem
          rw [htr]
          exact runCrawlingCycle_trace_head st.cache (inps start).now
            (inps start).targets (inps start).today (inps start).launchOk
            (inps start).scripts
      · exact Or.inr hprops
  · intro inp st' hlf
    have hfalse : (runCrawlingCycle st'.cache inp.now inp.targets inp.today
        inp.launchOk inp.scripts).2.2 = false := by
      simp [runCrawlingCycle, hlf]
    refine ⟨(runCrawlingCycle st'.cache inp.now inp.targets inp.today
      inp.launchOk inp.scripts).1, ?_, ?_⟩
    · simp [mainLoopStep, hfalse]
    · exact (runCrawlingCycle_trace_head st'.cache inp.now inp.targets
        inp.today inp.launchOk inp.scripts).1

/-- Witness for C10: two iterations of an always-failing loop still log
two attempts; the failing attempt is logged `false` with the cleanup event
first. -/
theorem main_loop_forever_witness :
    (mainLoop (fun _ => ⟨0, 0, false, [], fun _ => defaultScript⟩) 0 2
      ⟨[], 1, []⟩).log.length = 0 + 2
    ∧ ∃ tr, (mainLoopStep ⟨0, 0, false, [], fun _ => defaultScript⟩
        ⟨[], 1, []⟩).log = [] ++ [(tr, false)]
        ∧ tr.head? = some CEv.cleanupEv := by
  have h := main_loop_forever (fun _ => ⟨0, 0, false, [], fun _ => defaultScript⟩)
    0 2 ⟨[], 1, []⟩
  exact ⟨h.1, h.2.2 ⟨0, 0, false, [], fun _ => defaultScript⟩ ⟨[], 1, []⟩ rfl⟩

end DpsnnnAlert
